import Mathlib

/-!
Verification development for the OppTick intake-and-reminder engine.

The repository ships the engine's documentation and its marketing landing
page; the engine itself (scheduler, dispatcher, classifier, extractor,
intake state machine) is specified in the design document.  Those components
are modelled here from the specification (each such definition carries a
doc comment starting with `Modelled from the spec:`); the landing-page
components are embedded from the React sources in `src/`.

Time is measured in minutes since an arbitrary epoch, as an integer.
One day is 1440 minutes; the day-of reminder hour (9 AM) is minute 540 of
the day.
-/

namespace OppTick

def minutesPerDay : Int := 1440

def dayOfHourMinute : Int := 540

inductive Priority
  | high
  | medium
  | low
deriving DecidableEq, Repr

inductive Status
  | active
  | done
  | archived
deriving DecidableEq, Repr

inductive Category
  | internship
  | scholarship
  | event
  | job
  | other
deriving DecidableEq, Repr

structure Opportunity where
  id : Nat
  ownerId : Nat
  title : String
  category : Category
  priority : Priority
  deadline : Int
  status : Status
deriving DecidableEq, Repr

/-- Reminder offset kinds, named after the spec's tags T-14d .. T-0d. -/
inductive Kind
  | t14d
  | t7d
  | t3d
  | t2d
  | t1d
  | t0d
deriving DecidableEq, Repr

structure Reminder where
  oppId : Nat
  ownerId : Nat
  kind : Kind
  fireAt : Int
  sent : Bool
  cancelled : Bool
deriving DecidableEq, Repr

/-- Modelled from the spec: the offset table of section 4.4 (the scheduler
code, `bot.py`, is not in the repository snapshot).  Low/Medium get
7 days, 3 days, 1 day and day-of; High additionally gets 14 days and
2 days. -/
def offsetsFor : Priority → List Kind
  | .high => [.t14d, .t7d, .t3d, .t2d, .t1d, .t0d]
  | .medium => [.t7d, .t3d, .t1d, .t0d]
  | .low => [.t7d, .t3d, .t1d, .t0d]

def offsetDays : Kind → Int
  | .t14d => 14
  | .t7d => 7
  | .t3d => 3
  | .t2d => 2
  | .t1d => 1
  | .t0d => 0

/-- Modelled from the spec: `fire_at = deadline - offset`, except the day-of
reminder, which is pinned to a fixed local hour (9 AM) on the deadline
date. -/
def fireAtFor (deadline : Int) : Kind → Int
  | .t0d => deadline / minutesPerDay * minutesPerDay + dayOfHourMinute
  | k => deadline - offsetDays k * minutesPerDay

def mkReminder (o : Opportunity) (k : Kind) : Reminder :=
  { oppId := o.id, ownerId := o.ownerId, kind := k,
    fireAt := fireAtFor o.deadline k, sent := false, cancelled := false }

/-- Modelled from the spec: the fresh timetable computed by `schedule` —
one reminder per tier offset, skipping offsets whose fire time already
passed at scheduling time. -/
def freshReminders (now : Int) (o : Opportunity) : List Reminder :=
  (offsetsFor o.priority).filterMap fun k =>
    if now ≤ fireAtFor o.deadline k then some (mkReminder o k) else none

/-- True for a reminder record of the given opportunity that has not been
sent yet (whether or not it was logically cancelled). -/
def unsentFor (oppId : Nat) (r : Reminder) : Bool :=
  r.oppId == oppId && !r.sent

/-- Modelled from the spec: `schedule(opportunity)` deterministically
produces the reminder set for the opportunity and replaces any existing
unsent reminder set for it. -/
def schedule (now : Int) (o : Opportunity) (rs : List Reminder) : List Reminder :=
  rs.filter (fun r => !unsentFor o.id r) ++ freshReminders now o

/-- Modelled from the spec: `cancel(opportunity_id)` marks all unsent
reminders for that opportunity as permanently inapplicable (logically
deleted). -/
def cancel (oppId : Nat) (rs : List Reminder) : List Reminder :=
  rs.map fun r => if unsentFor oppId r then { r with cancelled := true } else r

/-- Modelled from the spec: `reschedule(opportunity)` = `cancel` +
`schedule`, invoked on deadline edit. -/
def reschedule (now : Int) (o : Opportunity) (rs : List Reminder) : List Reminder :=
  schedule now o (cancel o.id rs)

/-- True for a reminder that is unsent, not logically cancelled, and owned
by the given opportunity: the reminders that can still fire for it. -/
def fireableFor (oppId : Nat) (r : Reminder) : Bool :=
  r.oppId == oppId && !r.sent && !r.cancelled

/-- Unsent, uncancelled reminders of one opportunity in a store. -/
def liveSet (oppId : Nat) (rs : List Reminder) : List Reminder :=
  rs.filter (fireableFor oppId)

/-- Invariant of the Reminder Store for one opportunity: its unsent,
uncancelled reminders carry pairwise distinct kinds, every kind belongs
to the opportunity's priority tier, and every fire time is the tier's
fire time. -/
def tierInvariant (o : Opportunity) (rs : List Reminder) : Prop :=
  ((liveSet o.id rs).map Reminder.kind).Nodup
  ∧ ∀ r ∈ liveSet o.id rs,
      r.kind ∈ offsetsFor o.priority ∧ r.fireAt = fireAtFor o.deadline r.kind

/-! ### Dispatch Worker -/

structure SysState where
  opps : List Opportunity
  rems : List Reminder
deriving DecidableEq, Repr

def statusOf (opps : List Opportunity) (oppId : Nat) : Option Status :=
  (opps.find? fun o => o.id == oppId).map Opportunity.status

def isActive (opps : List Opportunity) (oppId : Nat) : Bool :=
  statusOf opps oppId == some .active

/-- Reminder selected by a dispatch tick: unsent, not logically deleted,
and due. -/
def dueAt (now : Int) (r : Reminder) : Bool :=
  !r.sent && !r.cancelled && decide (r.fireAt ≤ now)

/-- Modelled from the spec: one tick of the Dispatch Worker (section 4.5;
the worker code, `bot.py`, is not in the repository snapshot).  Due
reminders of Active opportunities are notified and marked sent; due
reminders of non-Active opportunities are skipped and also marked sent
without notifying.  The returned list records the notifications issued
to the outbound collaborator. -/
def tick (now : Int) (s : SysState) : List (Nat × Kind) × SysState :=
  (((s.rems.filter fun r => dueAt now r && isActive s.opps r.oppId).map
      fun r => (r.oppId, r.kind)),
    { opps := s.opps,
      rems := s.rems.map fun r =>
        if dueAt now r then { r with sent := true } else r })

/-- Run the Dispatch Worker over a sequence of tick times, accumulating
the notifications issued. -/
def runTicks (s : SysState) : List Int → List (Nat × Kind) × SysState
  | [] => ([], s)
  | t :: ts =>
    let stepped := tick t s
    let rest := runTicks stepped.2 ts
    (stepped.1 ++ rest.1, rest.2)

/-! ### Scheduler operation sequences -/

/-- An operation of the Reminder Scheduler applied to the Reminder Store:
either `schedule` for an opportunity at some time, or `cancel` for an
opportunity id. -/
inductive SchedOp
  | doSchedule (now : Int) (o : Opportunity)
  | doCancel (oppId : Nat)
deriving Repr

def applyOp (rs : List Reminder) : SchedOp → List Reminder
  | .doSchedule now o => schedule now o rs
  | .doCancel oppId => cancel oppId rs

def applyOps (rs : List Reminder) : List SchedOp → List Reminder
  | [] => rs
  | op :: ops => applyOps (applyOp rs op) ops

/-- An operation concerns opportunity `o` consistently when any `schedule`
it performs under `o`'s id is a `schedule` of `o` itself (the claim's
"no intervening change to the opportunity"). -/
def consistentWith (o : Opportunity) : SchedOp → Prop
  | .doSchedule _ o2 => o2.id = o.id → o2 = o
  | .doCancel _ => True

/-- Concrete opportunity used to instantiate universally quantified
theorems on sample data. -/
def sampleHigh : Opportunity :=
  { id := 1, ownerId := 42, title := "ACME internship", category := .internship,
    priority := .high, deadline := 100000, status := .active }

/-! ### Scheduler lemmas -/

theorem mem_freshReminders {now : Int} {o : Opportunity} {r : Reminder} :
    r ∈ freshReminders now o ↔
      ∃ k, k ∈ offsetsFor o.priority ∧ now ≤ fireAtFor o.deadline k ∧ r = mkReminder o k := by
  simp only [freshReminders, List.mem_filterMap]
  constructor
  · rintro ⟨k, hk, hr⟩
    by_cases h : now ≤ fireAtFor o.deadline k
    · rw [if_pos h] at hr
      exact ⟨k, hk, h, (Option.some_inj.mp hr).symm⟩
    · rw [if_neg h] at hr
      cases hr
  · rintro ⟨k, hk, h, rfl⟩
    exact ⟨k, hk, if_pos h⟩

theorem freshReminders_fields {now : Int} {o : Opportunity} {r : Reminder}
    (h : r ∈ freshReminders now o) :
    r.oppId = o.id ∧ r.sent = false ∧ r.cancelled = false ∧
      r.kind ∈ offsetsFor o.priority ∧ r.fireAt = fireAtFor o.deadline r.kind ∧
      now ≤ r.fireAt := by
  obtain ⟨k, hk, hle, rfl⟩ := mem_freshReminders.mp h
  simp [mkReminder, hk, hle]

theorem unsentFor_fresh {now : Int} {o : Opportunity} {r : Reminder}
    (h : r ∈ freshReminders now o) : unsentFor o.id r = true := by
  obtain ⟨h1, h2, -⟩ := freshReminders_fields h
  simp [unsentFor, h1, h2]

theorem fireableFor_fresh {now : Int} {o : Opportunity} {r : Reminder}
    (h : r ∈ freshReminders now o) : fireableFor o.id r = true := by
  obtain ⟨h1, h2, h3, -⟩ := freshReminders_fields h
  simp [fireableFor, h1, h2, h3]

theorem mkReminder_kind (o : Opportunity) (k : Kind) : (mkReminder o k).kind = k := rfl

theorem freshReminders_map_kind (now : Int) (o : Opportunity) :
    (freshReminders now o).map Reminder.kind =
      (offsetsFor o.priority).filter fun k => decide (now ≤ fireAtFor o.deadline k) := by
  unfold freshReminders
  generalize offsetsFor o.priority = l
  induction l with
  | nil => rfl
  | cons k ks ih =>
    by_cases h : now ≤ fireAtFor o.deadline k
    · simp [List.filterMap_cons, List.filter_cons, h, ih, mkReminder_kind]
    · simp [List.filterMap_cons, List.filter_cons, h, ih]

theorem fireableFor_implies_unsentFor {oppId : Nat} {r : Reminder}
    (h : fireableFor oppId r = true) : unsentFor oppId r = true := by
  simp only [fireableFor, Bool.and_eq_true] at h
  simp [unsentFor, h.1.1, h.1.2]

theorem liveSet_schedule_self (now : Int) (o : Opportunity) (rs : List Reminder) :
    liveSet o.id (schedule now o rs) = freshReminders now o := by
  unfold liveSet schedule
  rw [List.filter_append]
  have h1 : (rs.filter fun r => !unsentFor o.id r).filter (fireableFor o.id) = [] := by
    rw [List.filter_eq_nil_iff]
    intro r hr hfire
    have hq := (List.mem_filter.mp hr).2
    rw [fireableFor_implies_unsentFor hfire] at hq
    cases hq
  have h2 : (freshReminders now o).filter (fireableFor o.id) = freshReminders now o :=
    List.filter_eq_self.mpr fun r hr => fireableFor_fresh hr
  rw [h1, h2, List.nil_append]

theorem liveSet_schedule_other {oppId : Nat} {o : Opportunity} (now : Int)
    (rs : List Reminder) (h : o.id ≠ oppId) :
    liveSet oppId (schedule now o rs) = liveSet oppId rs := by
  unfold liveSet schedule
  rw [List.filter_append]
  have h2 : (freshReminders now o).filter (fireableFor oppId) = [] := by
    rw [List.filter_eq_nil_iff]
    intro r hr hfire
    have ho := (freshReminders_fields hr).1
    simp only [fireableFor, Bool.and_eq_true, beq_iff_eq] at hfire
    exact h (ho ▸ hfire.1.1)
  have h1 : (rs.filter fun r => !unsentFor o.id r).filter (fireableFor oppId) =
      rs.filter (fireableFor oppId) := by
    rw [List.filter_filter]
    apply List.filter_congr
    intro r _
    by_cases hfire : fireableFor oppId r = true
    · have hne : (r.oppId == o.id) = false := by
        have hid : r.oppId = oppId := by
          simp only [fireableFor, Bool.and_eq_true, beq_iff_eq] at hfire
          exact hfire.1.1
        rw [hid]
        exact beq_eq_false_iff_ne.mpr h.symm
      have hu : unsentFor o.id r = false := by simp [unsentFor, hne]
      simp [hfire, hu]
    · have hf : fireableFor oppId r = false := by simpa using hfire
      simp [hf]
  rw [h1, h2, List.append_nil]

theorem liveSet_cancel_self (oppId : Nat) (rs : List Reminder) :
    liveSet oppId (cancel oppId rs) = [] := by
  unfold liveSet cancel
  rw [List.filter_map]
  have h : rs.filter (fireableFor oppId ∘ fun r =>
      if unsentFor oppId r then { r with cancelled := true } else r) = [] := by
    rw [List.filter_eq_nil_iff]
    intro r _ hfire
    simp only [Function.comp_apply] at hfire
    by_cases hu : unsentFor oppId r = true
    · rw [if_pos hu] at hfire
      simp [fireableFor] at hfire
    · rw [if_neg hu] at hfire
      exact hu (fireableFor_implies_unsentFor hfire)
  rw [h, List.map_nil]

theorem liveSet_cancel_other {cid oppId : Nat} (rs : List Reminder) (h : cid ≠ oppId) :
    liveSet oppId (cancel cid rs) = liveSet oppId rs := by
  unfold liveSet cancel
  rw [List.filter_map]
  have hp : ∀ r ∈ rs,
      (fireableFor oppId ∘ fun r => if unsentFor cid r then { r with cancelled := true } else r) r
        = fireableFor oppId r := by
    intro r _
    simp only [Function.comp_apply]
    by_cases hu : unsentFor cid r = true
    · have hid : r.oppId = cid := by
        have h1 := hu
        simp only [unsentFor, Bool.and_eq_true, beq_iff_eq] at h1
        exact h1.1
      have hne : (r.oppId == oppId) = false := by
        rw [hid]
        exact beq_eq_false_iff_ne.mpr h
      rw [if_pos hu]
      simp [fireableFor, hne]
    · rw [if_neg hu]
  rw [List.filter_congr hp]
  have hid2 : ∀ r ∈ rs.filter (fireableFor oppId),
      (if unsentFor cid r then { r with cancelled := true } else r) = r := by
    intro r hr
    have hfire := (List.mem_filter.mp hr).2
    have h1 : r.oppId = oppId := by
      simp only [fireableFor, Bool.and_eq_true, beq_iff_eq] at hfire
      exact hfire.1.1
    have hu : unsentFor cid r = false := by
      have hne : (r.oppId == cid) = false := by
        rw [h1]
        exact beq_eq_false_iff_ne.mpr h.symm
      simp [unsentFor, hne]
    simp [hu]
  rw [List.map_congr_left hid2, List.map_id']

theorem offsetsFor_nodup (p : Priority) : (offsetsFor p).Nodup := by
  cases p <;> decide

/-! ### Claim C1 -/

/-- C1: `schedule` produces reminders at exactly the offsets of the
opportunity's priority tier — the tier's offset list filtered by the
is-it-still-in-the-future test — each with the tier's fire time; when no
offset is already past this is six reminders for High and four for
Low/Medium. -/
theorem schedule_produces_tier_offsets (now : Int) (o : Opportunity) (rs : List Reminder) :
    (liveSet o.id (schedule now o rs)).map Reminder.kind
        = (offsetsFor o.priority).filter (fun k => decide (now ≤ fireAtFor o.deadline k))
    ∧ (∀ r ∈ liveSet o.id (schedule now o rs), r.fireAt = fireAtFor o.deadline r.kind)
    ∧ ((∀ k ∈ offsetsFor o.priority, now ≤ fireAtFor o.deadline k) →
        (liveSet o.id (schedule now o rs)).length = (offsetsFor o.priority).length)
    ∧ (offsetsFor Priority.high).length = 6
    ∧ (offsetsFor Priority.medium).length = 4
    ∧ (offsetsFor Priority.low).length = 4 := by
  refine ⟨?_, ?_, ?_, rfl, rfl, rfl⟩
  · rw [liveSet_schedule_self, freshReminders_map_kind]
  · intro r hr
    rw [liveSet_schedule_self] at hr
    exact (freshReminders_fields hr).2.2.2.2.1
  · intro hall
    rw [liveSet_schedule_self]
    have h1 : (freshReminders now o).length =
        ((offsetsFor o.priority).filter fun k => decide (now ≤ fireAtFor o.deadline k)).length := by
      rw [← freshReminders_map_kind, List.length_map]
    have h2 : ((offsetsFor o.priority).filter fun k => decide (now ≤ fireAtFor o.deadline k)) =
        offsetsFor o.priority :=
      List.filter_eq_self.mpr fun k hk => by simpa using hall k hk
    rw [h1, h2]

/-- Witness for C1 at a concrete High-priority opportunity with every
offset still in the future: exactly six reminders are produced. -/
theorem schedule_produces_tier_offsets_witness :
    (liveSet sampleHigh.id (schedule 0 sampleHigh [])).length =
      (offsetsFor sampleHigh.priority).length :=
  (schedule_produces_tier_offsets 0 sampleHigh []).2.2.1 (by decide)

/-! ### Claim C3 -/

/-- C3: `schedule` is idempotent — applying it twice with no intervening
change to the opportunity, the store, or the current time yields exactly
the same reminder list as applying it once, and the unsent reminder set it
leaves for the opportunity holds no duplicate kind. -/
theorem schedule_idempotent (now : Int) (o : Opportunity) (rs : List Reminder) :
    schedule now o (schedule now o rs) = schedule now o rs
    ∧ ((liveSet o.id (schedule now o rs)).map Reminder.kind).Nodup := by
  constructor
  · conv_lhs => rw [schedule, schedule]
    rw [List.filter_append, List.filter_filter]
    have hfr : (freshReminders now o).filter (fun r => !unsentFor o.id r) = [] := by
      rw [List.filter_eq_nil_iff]
      intro r hr
      simp [unsentFor_fresh hr]
    rw [hfr, List.append_nil, schedule]
    congr 1
    apply List.filter_congr
    intro r _
    rw [Bool.and_self]
  · rw [liveSet_schedule_self, freshReminders_map_kind]
    exact (offsetsFor_nodup o.priority).filter _

/-! ### Claim C4 -/

/-- C4: offsets whose fire time falls before the scheduling time are
skipped, never back-fired: every scheduled reminder's fire time is at or
after `now`; in particular a High-priority opportunity whose deadline is
ten days away gets exactly the reminders at offsets 7d, 3d, 2d, 1d and
day-of, with the 14d offset skipped. -/
theorem schedule_skips_past_offsets (now : Int) (o : Opportunity) (rs : List Reminder)
    (hp : o.priority = Priority.high) (hd : o.deadline = now + 10 * minutesPerDay) :
    (∀ (o2 : Opportunity) (r : Reminder), r ∈ freshReminders now o2 → now ≤ r.fireAt)
    ∧ (liveSet o.id (schedule now o rs)).map Reminder.kind
        = [Kind.t7d, Kind.t3d, Kind.t2d, Kind.t1d, Kind.t0d] := by
  constructor
  · intro o2 r hr
    exact (freshReminders_fields hr).2.2.2.2.2
  · rw [liveSet_schedule_self, freshReminders_map_kind, hp, hd]
    have h14 : ¬ (now ≤ fireAtFor (now + 10 * minutesPerDay) Kind.t14d) := by
      simp only [fireAtFor, offsetDays, minutesPerDay]
      omega
    have h7 : now ≤ fireAtFor (now + 10 * minutesPerDay) Kind.t7d := by
      simp only [fireAtFor, offsetDays, minutesPerDay]
      omega
    have h3 : now ≤ fireAtFor (now + 10 * minutesPerDay) Kind.t3d := by
      simp only [fireAtFor, offsetDays, minutesPerDay]
      omega
    have h2 : now ≤ fireAtFor (now + 10 * minutesPerDay) Kind.t2d := by
      simp only [fireAtFor, offsetDays, minutesPerDay]
      omega
    have h1 : now ≤ fireAtFor (now + 10 * minutesPerDay) Kind.t1d := by
      simp only [fireAtFor, offsetDays, minutesPerDay]
      omega
    have h0 : now ≤ fireAtFor (now + 10 * minutesPerDay) Kind.t0d := by
      simp only [fireAtFor, minutesPerDay, dayOfHourMinute]
      omega
    simp [offsetsFor, List.filter_cons, h14, h7, h3, h2, h1, h0]

/-- Witness for C4 at a concrete High-priority opportunity scheduled ten
days before its deadline. -/
theorem schedule_skips_past_offsets_witness :
    (liveSet 1 (schedule 0
        { id := 1, ownerId := 42, title := "ACME internship", category := .internship,
          priority := .high, deadline := 14400, status := .active } [])).map Reminder.kind
      = [Kind.t7d, Kind.t3d, Kind.t2d, Kind.t1d, Kind.t0d] :=
  (schedule_skips_past_offsets 0
    { id := 1, ownerId := 42, title := "ACME internship", category := .internship,
      priority := .high, deadline := 14400, status := .active } [] rfl (by decide)).2

/-! ### Claim C5 -/

theorem tierInvariant_fresh (now : Int) (o : Opportunity) (rs : List Reminder) :
    tierInvariant o (schedule now o rs) := by
  unfold tierInvariant
  rw [liveSet_schedule_self]
  constructor
  · rw [freshReminders_map_kind]
    exact (offsetsFor_nodup o.priority).filter _
  · intro r hr
    exact ⟨(freshReminders_fields hr).2.2.2.1, (freshReminders_fields hr).2.2.2.2.1⟩

theorem tierInvariant_applyOp (o : Opportunity) (rs : List Reminder) (op : SchedOp)
    (hc : consistentWith o op) (hinv : tierInvariant o rs) :
    tierInvariant o (applyOp rs op) := by
  cases op with
  | doSchedule now o2 =>
    by_cases hid : o2.id = o.id
    · rw [show o2 = o from hc hid]
      exact tierInvariant_fresh now o rs
    · unfold applyOp tierInvariant at *
      rw [liveSet_schedule_other now rs hid]
      exact hinv
  | doCancel cid =>
    by_cases hcid : cid = o.id
    · subst hcid
      unfold applyOp tierInvariant
      rw [liveSet_cancel_self]
      simp
    · unfold applyOp tierInvariant at *
      rw [liveSet_cancel_other rs hcid]
      exact hinv

theorem tierInvariant_applyOps (o : Opportunity) (rs : List Reminder) (ops : List SchedOp)
    (hc : ∀ op ∈ ops, consistentWith o op) (hinv : tierInvariant o rs) :
    tierInvariant o (applyOps rs ops) := by
  induction ops generalizing rs with
  | nil => exact hinv
  | cons op ops ih =>
    exact ih (applyOp rs op) (fun op2 h2 => hc op2 (List.mem_cons_of_mem _ h2))
      (tierInvariant_applyOp o rs op (hc op (List.mem_cons_self _ _)) hinv)

/-- C5: through any sequence of `schedule` and `cancel` operations that
never changes the opportunity itself, its unsent, uncancelled reminders
carry pairwise distinct kinds dictated by its priority tier with the
tier's fire times; and `cancel` followed by `schedule` (`reschedule`)
leaves exactly the fresh timetable unsent and fireable — no reminder of
the prior timetable survives in an unsent, fireable state. -/
theorem reminder_kind_invariant (o : Opportunity) (ops : List SchedOp)
    (hops : ∀ op ∈ ops, consistentWith o op) :
    tierInvariant o (applyOps [] ops)
    ∧ (∀ (now : Int) (rs : List Reminder),
        liveSet o.id (reschedule now o rs) = freshReminders now o)
    ∧ (∀ (now : Int) (rs : List Reminder) (r : Reminder), r ∈ reschedule now o rs →
        fireableFor o.id r = true → r ∈ freshReminders now o) := by
  have hlive : ∀ (now : Int) (rs : List Reminder),
      liveSet o.id (reschedule now o rs) = freshReminders now o := by
    intro now rs
    unfold reschedule
    exact liveSet_schedule_self now o (cancel o.id rs)
  refine ⟨tierInvariant_applyOps o [] ops hops ⟨by simp [liveSet], by simp [liveSet]⟩, hlive, ?_⟩
  intro now rs r hr hf
  have hmem : r ∈ liveSet o.id (reschedule now o rs) :=
    List.mem_filter.mpr ⟨hr, hf⟩
  rw [hlive now rs] at hmem
  exact hmem

/-- Witness for C5 on a concrete cancel-then-schedule sequence. -/
theorem reminder_kind_invariant_witness :
    tierInvariant sampleHigh
      (applyOps [] [SchedOp.doCancel sampleHigh.id, SchedOp.doSchedule 0 sampleHigh]) :=
  (reminder_kind_invariant sampleHigh
    [SchedOp.doCancel sampleHigh.id, SchedOp.doSchedule 0 sampleHigh]
    (by
      intro op hop
      simp only [List.mem_cons, List.mem_singleton] at hop
      rcases hop with rfl | rfl | h
      · exact trivial
      · exact fun _ => rfl
      · cases h)).1

/-! ### Claim C2 -/

theorem tick_no_notify_inactive {s : SysState} {oppId : Nat} (now : Int)
    (h : ¬ statusOf s.opps oppId = some Status.active) :
    ∀ p ∈ (tick now s).1, p.1 ≠ oppId := by
  intro p hp
  simp only [tick, List.mem_map] at hp
  obtain ⟨r, hr, rfl⟩ := hp
  have hact := (List.mem_filter.mp hr).2
  simp only [Bool.and_eq_true] at hact
  intro he
  apply h
  have hb : isActive s.opps r.oppId = true := hact.2
  simp only [isActive, beq_iff_eq] at hb
  simp only at he
  rw [← he]
  exact hb

theorem runTicks_no_notify_inactive {oppId : Nat} (ts : List Int) (s : SysState)
    (h : ¬ statusOf s.opps oppId = some Status.active) :
    ∀ p ∈ (runTicks s ts).1, p.1 ≠ oppId := by
  induction ts generalizing s with
  | nil =>
    intro p hp
    cases hp
  | cons t ts ih =>
    intro p hp
    simp only [runTicks, List.mem_append] at hp
    rcases hp with hp | hp
    · exact tick_no_notify_inactive t h p hp
    · exact ih (tick t s).2 h p hp

/-- C2: the Dispatch Worker never notifies for a reminder whose owning
opportunity is not Active — in one tick and across any run of ticks no
notification names the non-Active opportunity — while its due, unsent
reminders are still marked sent (to prevent stale re-evaluation), and the
tick leaves the opportunities untouched. -/
theorem dispatch_skips_inactive (s : SysState) (oppId : Nat) (now : Int) (times : List Int)
    (h : ¬ statusOf s.opps oppId = some Status.active) :
    (∀ p ∈ (tick now s).1, p.1 ≠ oppId)
    ∧ (∀ r ∈ s.rems, r.oppId = oppId → dueAt now r = true →
        { r with sent := true } ∈ (tick now s).2.rems)
    ∧ (tick now s).2.opps = s.opps
    ∧ (∀ p ∈ (runTicks s times).1, p.1 ≠ oppId) := by
  refine ⟨tick_no_notify_inactive now h, ?_, rfl, runTicks_no_notify_inactive times s h⟩
  intro r hr _ hdue
  simp only [tick]
  exact List.mem_map.mpr ⟨r, hr, by rw [if_pos hdue]⟩

/-- Concrete Done opportunity used in the C2 witness. -/
def sampleDone : Opportunity :=
  { id := 2, ownerId := 42, title := "Old posting", category := .job,
    priority := .medium, deadline := 500, status := .done }

/-- Concrete overdue, unsent reminder of the Done opportunity. -/
def sampleDoneReminder : Reminder :=
  { oppId := 2, ownerId := 42, kind := .t7d, fireAt := 400, sent := false, cancelled := false }

/-- Witness for C2: the overdue reminder of a Done opportunity is marked
sent by the tick. -/
theorem dispatch_skips_inactive_witness :
    { sampleDoneReminder with sent := true }
      ∈ (tick 1000 ⟨[sampleDone], [sampleDoneReminder]⟩).2.rems :=
  (dispatch_skips_inactive ⟨[sampleDone], [sampleDoneReminder]⟩ 2 1000 [] (by decide)).2.1
    sampleDoneReminder (List.mem_singleton_self _) rfl (by decide)

/-! ### Category Classifier -/

def isPrefixOfChars : List Char → List Char → Bool
  | [], _ => true
  | _ :: _, [] => false
  | p :: ps, t :: ts => p == t && isPrefixOfChars ps ts

/-- Substring occurrence test on character lists. -/
def occursIn (pat : List Char) : List Char → Bool
  | [] => pat.isEmpty
  | t :: ts => isPrefixOfChars pat (t :: ts) || occursIn pat ts

def normalizeText (text : String) : List Char :=
  text.data.map Char.toLower

def internshipKeywords : List String := ["internship", "intern"]

def scholarshipKeywords : List String := ["scholarship", "fellowship", "grant", "stipend"]

def eventKeywords : List String :=
  ["event", "conference", "hackathon", "workshop", "webinar", "summit"]

def jobKeywords : List String := ["job", "vacancy", "hiring", "position", "career"]

def matchesAny (text : List Char) (kws : List String) : Bool :=
  kws.any fun kw => occursIn kw.data text

/-- Modelled from the spec: the Category Classifier's fixed keyword table,
one row per category in its deterministic priority order (section 4.2;
the classifier code, `bot.py`, is not in the repository snapshot). -/
def keywordTable : List (Category × List String) :=
  [(.internship, internshipKeywords), (.scholarship, scholarshipKeywords),
   (.event, eventKeywords), (.job, jobKeywords)]

/-- Modelled from the spec: free text to category by keyword matching, the
first matching category under the table's order wins, no match gives
`Other`.  A total Lean function: it returns a value on every input and has
no side effects. -/
def classify (text : String) : Category :=
  match keywordTable.find? (fun p => matchesAny (normalizeText text) p.2) with
  | some p => p.1
  | none => .other

/-! ### Deadline Extractor -/

/-- Candidate produced by the Deadline Extractor: a point in time, a
confidence rank, and the span of text it matched. -/
structure DateCandidate where
  pointInTime : Int
  confidence : Nat
  matchedSpan : List Char
deriving DecidableEq, Repr

def highConfidence : Nat := 2

def mediumConfidence : Nat := 1

def lowConfidence : Nat := 0

def isLeapYearB (y : Nat) : Bool :=
  (y % 4 == 0 && y % 100 != 0) || y % 400 == 0

def daysBeforeMonth (leap : Bool) (m : Nat) : Nat :=
  (match m with
    | 1 => 0 | 2 => 31 | 3 => 59 | 4 => 90 | 5 => 120 | 6 => 151
    | 7 => 181 | 8 => 212 | 9 => 243 | 10 => 273 | 11 => 304 | _ => 334)
  + (if leap && decide (3 ≤ m) then 1 else 0)

def daysBeforeYear (y : Nat) : Nat :=
  365 * y + y / 4 - y / 100 + y / 400

/-- Minutes since the epoch (proleptic year 0, January 1, midnight) of the
start of the given calendar date. -/
def dateMinutes (y m d : Nat) : Int :=
  ((daysBeforeYear y + daysBeforeMonth (isLeapYearB y) m + (d - 1) : Nat) : Int) * minutesPerDay

def digitVal (c : Char) : Nat := c.toNat - 48

/-- Read exactly `n` digit characters as a decimal number. -/
def takeDigits : Nat → List Char → Option (Nat × List Char)
  | 0, cs => some (0, cs)
  | _ + 1, [] => none
  | n + 1, c :: cs =>
    if c.isDigit then
      match takeDigits n cs with
      | some (v, rest) => some (digitVal c * 10 ^ n + v, rest)
      | none => none
    else none

def expectChar (a : Char) : List Char → Option (List Char)
  | [] => none
  | c :: cs => if c == a then some cs else none

def validMonthDay (m d : Nat) : Bool :=
  decide (1 ≤ m) && decide (m ≤ 12) && decide (1 ≤ d) && decide (d ≤ 31)

/-- Modelled from the spec: recognition of an explicit ISO-like date
`YYYY-MM-DD` at the head of the character list (section 4.1; the
extractor code, `bot.py`, is not in the repository snapshot). -/
def matchIso (cs : List Char) : Option (Nat × Nat × Nat) :=
  match takeDigits 4 cs with
  | none => none
  | some (y, cs1) =>
    match expectChar '-' cs1 with
    | none => none
    | some cs2 =>
      match takeDigits 2 cs2 with
      | none => none
      | some (m, cs3) =>
        match expectChar '-' cs3 with
        | none => none
        | some cs4 =>
          match takeDigits 2 cs4 with
          | none => none
          | some (d, _) => if validMonthDay m d then some (y, m, d) else none

def mkIsoCandidate (y m d : Nat) (cs : List Char) : DateCandidate :=
  { pointInTime := dateMinutes y m d, confidence := highConfidence,
    matchedSpan := cs.take 10 }

/-- Scan every position of the text for an explicit ISO-like date. -/
def isoScan : List Char → List DateCandidate
  | [] => []
  | c :: cs =>
    match matchIso (c :: cs) with
    | some (y, m, d) => mkIsoCandidate y m d (c :: cs) :: isoScan cs
    | none => isoScan cs

/-- Read a maximal run of digit characters, accumulating their value. -/
def digitsAux (acc : Nat) : List Char → Nat × List Char
  | [] => (acc, [])
  | c :: cs => if c.isDigit then digitsAux (acc * 10 + digitVal c) cs else (acc, c :: cs)

/-- Modelled from the spec: the relative units the extractor resolves
("months", "weeks", "days"), with their day counts and word lengths. -/
def unitDaysOf (cs : List Char) : Option (Nat × Nat) :=
  if isPrefixOfChars ("month".data) cs then some (30, 5)
  else if isPrefixOfChars ("week".data) cs then some (7, 4)
  else if isPrefixOfChars ("day".data) cs then some (1, 3)
  else none

/-- Modelled from the spec: recognition of a relative date expression
("next week", "in N months/weeks/days") at the head of the character
list, resolved against the caller-supplied `now` (section 4.1). -/
def matchRelative (now : Int) (cs : List Char) : Option DateCandidate :=
  if isPrefixOfChars ("next week".data) cs then
    some { pointInTime := now + 7 * minutesPerDay, confidence := mediumConfidence,
           matchedSpan := "next week".data }
  else
    match cs with
    | 'i' :: 'n' :: ' ' :: c :: rest =>
      if c.isDigit then
        match digitsAux 0 (c :: rest) with
        | (n, rest2) =>
          match rest2 with
          | ' ' :: rest3 =>
            match unitDaysOf rest3 with
            | some (u, wordLen) =>
              some { pointInTime := now + (n : Int) * (u : Int) * minutesPerDay,
                     confidence := mediumConfidence,
                     matchedSpan := cs.take (cs.length - rest3.length + wordLen) }
            | none => none
          | _ => none
      else none
    | _ => none

/-- Scan every position of the text for a relative date expression. -/
def relScan (now : Int) : List Char → List DateCandidate
  | [] => []
  | c :: cs =>
    match matchRelative now (c :: cs) with
    | some cand => cand :: relScan now cs
    | none => relScan now cs

def takeOneOrTwoDigits : List Char → Option (Nat × List Char)
  | [] => none
  | [c] => if c.isDigit then some (digitVal c, []) else none
  | c1 :: c2 :: cs =>
    if c1.isDigit then
      if c2.isDigit then some (digitVal c1 * 10 + digitVal c2, cs)
      else some (digitVal c1, c2 :: cs)
    else none

/-- Modelled from the spec: an ambiguous numeric-only date (day/month vs
month/day, such as 12/10/2026) is flagged low-confidence rather than
silently resolved (section 4.1). -/
def matchAmbiguous (cs : List Char) : Option DateCandidate :=
  match takeOneOrTwoDigits cs with
  | none => none
  | some (a, cs1) =>
    match expectChar '/' cs1 with
    | none => none
    | some cs2 =>
      match takeOneOrTwoDigits cs2 with
      | none => none
      | some (b, cs3) =>
        match expectChar '/' cs3 with
        | none => none
        | some cs4 =>
          match takeDigits 4 cs4 with
          | none => none
          | some (y, rest) =>
            if validMonthDay a b then
              some { pointInTime := dateMinutes y a b, confidence := lowConfidence,
                     matchedSpan := cs.take (cs.length - rest.length) }
            else none

/-- Scan every position of the text for an ambiguous numeric date. -/
def ambScan : List Char → List DateCandidate
  | [] => []
  | c :: cs =>
    match matchAmbiguous (c :: cs) with
    | some cand => cand :: ambScan cs
    | none => ambScan cs

/-- Modelled from the spec: the Deadline Extractor (section 4.1) — a pure,
total function from free text to an ordered list of candidate
`(point_in_time, confidence, matched_span)` tuples, highest confidence
first, with the empty list (never an error) when no date is found. -/
def extractDeadlines (text : String) (now : Int) : List DateCandidate :=
  isoScan text.data ++ relScan now text.data ++ ambScan text.data

/-! ### Claim C6 -/

/-- C6: the Category Classifier is a pure total function into the fixed
category enumeration: on every input the first category of the table
order whose keywords match wins, and an input matching no keyword of any
category maps to `Other`. -/
theorem classify_first_match_total (text : String) :
    (matchesAny (normalizeText text) internshipKeywords = true →
        classify text = Category.internship)
    ∧ (matchesAny (normalizeText text) internshipKeywords = false →
        matchesAny (normalizeText text) scholarshipKeywords = true →
        classify text = Category.scholarship)
    ∧ (matchesAny (normalizeText text) internshipKeywords = false →
        matchesAny (normalizeText text) scholarshipKeywords = false →
        matchesAny (normalizeText text) eventKeywords = true →
        classify text = Category.event)
    ∧ (matchesAny (normalizeText text) internshipKeywords = false →
        matchesAny (normalizeText text) scholarshipKeywords = false →
        matchesAny (normalizeText text) eventKeywords = false →
        matchesAny (normalizeText text) jobKeywords = true →
        classify text = Category.job)
    ∧ (matchesAny (normalizeText text) internshipKeywords = false →
        matchesAny (normalizeText text) scholarshipKeywords = false →
        matchesAny (normalizeText text) eventKeywords = false →
        matchesAny (normalizeText text) jobKeywords = false →
        classify text = Category.other) := by
  refine ⟨?_, ?_, ?_, ?_, ?_⟩
  · intro h1
    simp [classify, keywordTable, List.find?, h1]
  · intro h1 h2
    simp [classify, keywordTable, List.find?, h1, h2]
  · intro h1 h2 h3
    simp [classify, keywordTable, List.find?, h1, h2, h3]
  · intro h1 h2 h3 h4
    simp [classify, keywordTable, List.find?, h1, h2, h3, h4]
  · intro h1 h2 h3 h4
    simp [classify, keywordTable, List.find?, h1, h2, h3, h4]

/-- Witness for C6: a text mentioning an internship classifies as
Internship and a keyword-free text classifies as Other. -/
theorem classify_first_match_total_witness :
    classify "Apply for the ACME summer INTERNSHIP by Friday" = Category.internship
    ∧ classify "hello there, nothing to see" = Category.other :=
  ⟨(classify_first_match_total "Apply for the ACME summer INTERNSHIP by Friday").1 (by decide),
   (classify_first_match_total "hello there, nothing to see").2.2.2.2
     (by decide) (by decide) (by decide) (by decide)⟩

/-! ### Extractor lemmas -/

theorem matchIso_none_of_nondigit {c : Char} (cs : List Char) (hc : c.isDigit = false) :
    matchIso (c :: cs) = none := by
  unfold matchIso
  simp [takeDigits, hc]

theorem isoScan_cons_none {c : Char} {cs : List Char} (h : matchIso (c :: cs) = none) :
    isoScan (c :: cs) = isoScan cs := by
  rw [isoScan, h]

theorem isoScan_nil_of_nodigit {cs : List Char} (h : ∀ c ∈ cs, c.isDigit = false) :
    isoScan cs = [] := by
  induction cs with
  | nil => rfl
  | cons c cs ih =>
    rw [isoScan_cons_none (matchIso_none_of_nondigit cs (h c (List.mem_cons_self c cs)))]
    exact ih fun c2 h2 => h c2 (List.mem_cons_of_mem _ h2)

theorem isoScan_conf (cs : List Char) :
    ∀ cand ∈ isoScan cs, cand.confidence = highConfidence := by
  induction cs with
  | nil =>
    intro cand h
    cases h
  | cons c cs ih =>
    intro cand h
    rw [isoScan] at h
    rcases hm : matchIso (c :: cs) with - | ⟨y, m, d⟩ <;> rw [hm] at h
    · exact ih cand h
    · have h2 : cand ∈ mkIsoCandidate y m d (c :: cs) :: isoScan cs := h
      rcases List.mem_cons.mp h2 with rfl | h3
      · rfl
      · exact ih cand h3

theorem matchRelative_none {now : Int} {cs : List Char}
    (hn : ∀ c ∈ cs, c ≠ 'n') : matchRelative now cs = none := by
  unfold matchRelative
  have hd : ("next week".data) = ['n', 'e', 'x', 't', ' ', 'w', 'e', 'e', 'k'] := rfl
  rw [if_neg ?hpre]
  case hpre =>
    cases cs with
    | nil => rw [hd]; simp [isPrefixOfChars]
    | cons c cs2 =>
      have hc := hn c (List.mem_cons_self _ _)
      rw [hd]
      simp [isPrefixOfChars, beq_eq_false_iff_ne.mpr (Ne.symm hc)]
  split
  · exact absurd rfl (hn 'n' (by simp))
  · rfl

theorem relScan_cons_none {now : Int} {c : Char} {cs : List Char}
    (h : matchRelative now (c :: cs) = none) :
    relScan now (c :: cs) = relScan now cs := by
  rw [relScan, h]

theorem relScan_nil_of_no_n {now : Int} {cs : List Char} (h : ∀ c ∈ cs, c ≠ 'n') :
    relScan now cs = [] := by
  induction cs with
  | nil => rfl
  | cons c cs ih =>
    rw [relScan_cons_none (matchRelative_none h)]
    exact ih fun c2 h2 => h c2 (List.mem_cons_of_mem _ h2)

theorem matchRelative_conf {now : Int} {cs : List Char} {cand : DateCandidate}
    (h : matchRelative now cs = some cand) : cand.confidence = mediumConfidence := by
  unfold matchRelative at h
  repeat' split at h
  all_goals first
    | (obtain rfl := Option.some_inj.mp h; rfl)
    | cases h

theorem relScan_conf (now : Int) (cs : List Char) :
    ∀ cand ∈ relScan now cs, cand.confidence = mediumConfidence := by
  induction cs with
  | nil =>
    intro cand h
    cases h
  | cons c cs ih =>
    intro cand h
    rw [relScan] at h
    rcases hm : matchRelative now (c :: cs) with - | cand2 <;> rw [hm] at h
    · exact ih cand h
    · have h2 : cand ∈ cand2 :: relScan now cs := h
      rcases List.mem_cons.mp h2 with rfl | h3
      · exact matchRelative_conf hm
      · exact ih cand h3

theorem takeOneOrTwoDigits_none {c : Char} (cs : List Char) (hc : c.isDigit = false) :
    takeOneOrTwoDigits (c :: cs) = none := by
  cases cs <;> simp [takeOneOrTwoDigits, hc]

theorem matchAmbiguous_none {c : Char} (cs : List Char) (hc : c.isDigit = false) :
    matchAmbiguous (c :: cs) = none := by
  unfold matchAmbiguous
  rw [takeOneOrTwoDigits_none cs hc]

theorem ambScan_cons_none {c : Char} {cs : List Char} (h : matchAmbiguous (c :: cs) = none) :
    ambScan (c :: cs) = ambScan cs := by
  rw [ambScan, h]

theorem ambScan_nil_of_nodigit {cs : List Char} (h : ∀ c ∈ cs, c.isDigit = false) :
    ambScan cs = [] := by
  induction cs with
  | nil => rfl
  | cons c cs ih =>
    rw [ambScan_cons_none (matchAmbiguous_none cs (h c (List.mem_cons_self c cs)))]
    exact ih fun c2 h2 => h c2 (List.mem_cons_of_mem _ h2)

theorem matchAmbiguous_conf {cs : List Char} {cand : DateCandidate}
    (h : matchAmbiguous cs = some cand) : cand.confidence = lowConfidence := by
  unfold matchAmbiguous at h
  repeat' split at h
  all_goals first
    | (obtain rfl := Option.some_inj.mp h; rfl)
    | cases h

theorem ambScan_conf (cs : List Char) :
    ∀ cand ∈ ambScan cs, cand.confidence = lowConfidence := by
  induction cs with
  | nil =>
    intro cand h
    cases h
  | cons c cs ih =>
    intro cand h
    rw [ambScan] at h
    rcases hm : matchAmbiguous (c :: cs) with - | cand2 <;> rw [hm] at h
    · exact ih cand h
    · have h2 : cand ∈ cand2 :: ambScan cs := h
      rcases List.mem_cons.mp h2 with rfl | h3
      · exact matchAmbiguous_conf hm
      · exact ih cand h3

/-! ### Claim C7 -/

/-- C7: the Deadline Extractor is a total function of the text and the
caller-supplied `now`: it always returns a list, ordered
highest-confidence first, and on text containing no candidate at all (no
digits and none of its relative keywords, which all contain the letter n)
it returns the empty list rather than failing. -/
theorem extractor_total_ordered (text : String) (now : Int) :
    List.Pairwise (fun a b => b.confidence ≤ a.confidence) (extractDeadlines text now)
    ∧ ((∀ c ∈ text.data, c.isDigit = false ∧ c ≠ 'n') → extractDeadlines text now = []) := by
  constructor
  · unfold extractDeadlines
    rw [List.pairwise_append]
    refine ⟨?_, ?_, ?_⟩
    · rw [List.pairwise_append]
      refine ⟨?_, ?_, ?_⟩
      · apply List.pairwise_of_forall_mem_list
        intro a ha b hb
        rw [isoScan_conf text.data a ha, isoScan_conf text.data b hb]
      · apply List.pairwise_of_forall_mem_list
        intro a ha b hb
        rw [relScan_conf now text.data a ha, relScan_conf now text.data b hb]
      · intro a ha b hb
        rw [isoScan_conf text.data a ha, relScan_conf now text.data b hb]
        decide
    · apply List.pairwise_of_forall_mem_list
      intro a ha b hb
      rw [ambScan_conf text.data a ha, ambScan_conf text.data b hb]
    · intro a ha b hb
      rw [ambScan_conf text.data b hb]
      rcases List.mem_append.mp ha with h | h
      · rw [isoScan_conf text.data a h]
        decide
      · rw [relScan_conf now text.data a h]
        decide
  · intro h
    unfold extractDeadlines
    rw [isoScan_nil_of_nodigit fun c hc => (h c hc).1,
      relScan_nil_of_no_n fun c hc => (h c hc).2,
      ambScan_nil_of_nodigit fun c hc => (h c hc).1]
    rfl

/-- Witness for C7: a dateless text yields the empty candidate list. -/
theorem extractor_total_ordered_witness :
    extractDeadlines "hello world, good luck!" 0 = [] :=
  (extractor_total_ordered "hello world, good luck!" 0).2 (by decide)

/-! ### Claim C9 -/

/-- C9: on text containing an explicit ISO-like date (2026-02-20 after a
digit-free prefix), the extractor's first candidate is exactly that date,
with high confidence and that ten-character span. -/
theorem iso_date_top_candidate (pre post : List Char) (now : Int)
    (hpre : ∀ c ∈ pre, c.isDigit = false) :
    (extractDeadlines (String.mk (pre ++ ("2026-02-20".data ++ post))) now).head? =
      some { pointInTime := dateMinutes 2026 2 20, confidence := highConfidence,
             matchedSpan := "2026-02-20".data } := by
  have key : ∀ pre2 : List Char, (∀ c ∈ pre2, c.isDigit = false) →
      ∃ l, isoScan (pre2 ++ ("2026-02-20".data ++ post)) =
        { pointInTime := dateMinutes 2026 2 20, confidence := highConfidence,
          matchedSpan := "2026-02-20".data } :: l := by
    intro pre2
    induction pre2 with
    | nil =>
      intro _
      exact ⟨isoScan ("026-02-20".data ++ post), rfl⟩
    | cons c pre3 ih =>
      intro hall
      obtain ⟨l, hl⟩ := ih fun c2 h2 => hall c2 (List.mem_cons_of_mem _ h2)
      refine ⟨l, ?_⟩
      rw [List.cons_append,
        isoScan_cons_none (matchIso_none_of_nondigit _ (hall c (List.mem_cons_self _ _))), hl]
  obtain ⟨l, hl⟩ := key pre hpre
  show (isoScan (pre ++ ("2026-02-20".data ++ post)) ++ _ ++ _).head? = _
  rw [hl]
  rfl

/-- Witness for C9 on a concrete message text. -/
theorem iso_date_top_candidate_witness :
    (extractDeadlines (String.mk
        ("deadline: ".data ++ ("2026-02-20".data ++ " apply!".data))) 0).head? =
      some { pointInTime := dateMinutes 2026 2 20, confidence := highConfidence,
             matchedSpan := "2026-02-20".data } :=
  iso_date_top_candidate ("deadline: ".data) (" apply!".data) 0 (by decide)

/-! ### Intake Session State Machine -/

inductive SessionState
  | awaitingForward
  | deadlineProposed
  | awaitingManualDeadline
  | deadlineConfirmed
  | typeSelection
  | prioritySelection
  | titleConfirmation
  | saved
deriving DecidableEq, Repr

structure Draft where
  title : String
  category : Category
  priority : Priority
  deadline : Option Int
deriving DecidableEq, Repr

structure Session where
  ownerId : Nat
  convId : Nat
  state : SessionState
  draft : Draft
deriving DecidableEq, Repr

inductive IntakeEvent
  | forwardMsg (text : String)
  | affirm
  | replaceDeadline (text : String)
  | selectType (c : Category)
  | selectPriority (p : Priority)
  | confirmTitle (t : String)
  | cancelIntake
  | idleTimeout
deriving DecidableEq, Repr

/-- Minimum extractor confidence for a deadline proposal. -/
def confidenceThreshold : Nat := 1

def firstLineOf (text : String) : String :=
  String.mk (text.data.takeWhile fun c => !(c == '\n'))

/-- Best extractor candidate at or above the minimum confidence. -/
def proposedDeadline (text : String) (now : Int) : Option Int :=
  match (extractDeadlines text now).head? with
  | some cand =>
    if confidenceThreshold ≤ cand.confidence then some cand.pointInTime else none
  | none => none

def mkOppFromDraft (freshId : Nat) (sess : Session) : Opportunity :=
  { id := freshId, ownerId := sess.ownerId, title := sess.draft.title,
    category := sess.draft.category, priority := sess.draft.priority,
    deadline := sess.draft.deadline.getD 0, status := .active }

/-- Modelled from the spec: one step of the Intake Session State Machine
(section 4.3; the session code, `bot.py`, is not in the repository
snapshot).  Returns the session after the event (`none` when the session
is abandoned and its draft discarded) together with the system state.
The only write to the Opportunity Store is the single atomic commit on
entering `Saved`, which also invokes the Reminder Scheduler
synchronously. -/
def stepIntake (now : Int) (ev : IntakeEvent) (sess : Session) (s : SysState) :
    Option Session × SysState :=
  match ev with
  | .cancelIntake => (none, s)
  | .idleTimeout => (none, s)
  | .forwardMsg text =>
    if sess.state = .awaitingForward then
      match proposedDeadline text now with
      | some t =>
        (some { sess with
                state := .deadlineProposed,
                draft := { title := firstLineOf text, category := classify text,
                           priority := .medium, deadline := some t } }, s)
      | none =>
        (some { sess with
                state := .awaitingManualDeadline,
                draft := { title := firstLineOf text, category := classify text,
                           priority := .medium, deadline := none } }, s)
    else (some sess, s)
  | .affirm =>
    if sess.state = .deadlineProposed ∨ sess.state = .awaitingManualDeadline then
      (some { sess with state := .typeSelection }, s)
    else (some sess, s)
  | .replaceDeadline text =>
    if sess.state = .deadlineProposed ∨ sess.state = .awaitingManualDeadline then
      match proposedDeadline text now with
      | some t =>
        (some { sess with
                state := .deadlineProposed,
                draft := { sess.draft with deadline := some t } }, s)
      | none => (some sess, s)
    else (some sess, s)
  | .selectType c =>
    if sess.state = .typeSelection then
      (some { sess with
              state := .prioritySelection,
              draft := { sess.draft with category := c } }, s)
    else (some sess, s)
  | .selectPriority p =>
    if sess.state = .prioritySelection then
      (some { sess with
              state := .titleConfirmation,
              draft := { sess.draft with priority := p } }, s)
    else (some sess, s)
  | .confirmTitle t =>
    if sess.state = .titleConfirmation then
      let sess2 : Session :=
        { sess with state := .saved, draft := { sess.draft with title := t } }
      let newOpp := mkOppFromDraft s.opps.length sess2
      (some sess2, { opps := s.opps ++ [newOpp], rems := schedule now newOpp s.rems })
    else (some sess, s)

/-! ### Claim C8 -/

/-- C8: in an Intake Session, abandonment (explicit cancel or idle
timeout) discards the session and leaves the system state untouched; no
event outside the `TitleConfirmation` state, and no event other than the
title confirmation, changes the system state; and the commit on entering
`Saved` appends exactly one opportunity built from the draft — the single
write to the Opportunity Store. -/
theorem intake_single_commit (now : Int) (ev : IntakeEvent) (sess : Session) (s : SysState) :
    ((ev = IntakeEvent.cancelIntake ∨ ev = IntakeEvent.idleTimeout) →
        stepIntake now ev sess s = (none, s))
    ∧ (sess.state ≠ SessionState.titleConfirmation → (stepIntake now ev sess s).2 = s)
    ∧ ((∀ t, ev ≠ IntakeEvent.confirmTitle t) → (stepIntake now ev sess s).2 = s)
    ∧ (∀ t, ev = IntakeEvent.confirmTitle t → sess.state = SessionState.titleConfirmation →
        (stepIntake now ev sess s).1 = some
          { sess with state := SessionState.saved, draft := { sess.draft with title := t } }
        ∧ (stepIntake now ev sess s).2.opps = s.opps ++
            [mkOppFromDraft s.opps.length
              { sess with state := SessionState.saved,
                          draft := { sess.draft with title := t } }]) := by
  refine ⟨?_, ?_, ?_, ?_⟩
  · rintro (rfl | rfl) <;> rfl
  · intro h
    cases ev <;> simp only [stepIntake]
    case forwardMsg text =>
      rcases proposedDeadline text now with - | t <;> split <;> rfl
    case affirm => split <;> rfl
    case replaceDeadline text =>
      rcases proposedDeadline text now with - | t <;> split <;> rfl
    case selectType c => split <;> rfl
    case selectPriority p => split <;> rfl
    case confirmTitle t =>
      split
      · exact absurd (by assumption) h
      · rfl
  · intro h
    cases ev <;> simp only [stepIntake]
    case forwardMsg text =>
      rcases proposedDeadline text now with - | t <;> split <;> rfl
    case affirm => split <;> rfl
    case replaceDeadline text =>
      rcases proposedDeadline text now with - | t <;> split <;> rfl
    case selectType c => split <;> rfl
    case selectPriority p => split <;> rfl
    case confirmTitle t => exact absurd rfl (h t)
  · rintro t rfl hst
    simp [stepIntake, hst]

/-- Witness for C8: an explicit cancel in mid-flight discards the draft
and leaves the store untouched. -/
theorem intake_single_commit_witness :
    stepIntake 0 IntakeEvent.cancelIntake
      { ownerId := 7, convId := 1, state := SessionState.typeSelection,
        draft := { title := "t", category := .other, priority := .medium, deadline := none } }
      ⟨[], []⟩ = (none, ⟨[], []⟩) :=
  (intake_single_commit 0 IntakeEvent.cancelIntake
    { ownerId := 7, convId := 1, state := SessionState.typeSelection,
      draft := { title := "t", category := .other, priority := .medium, deadline := none } }
    ⟨[], []⟩).1 (Or.inl rfl)

/-! ### Landing page components (embedded from the React sources) -/

structure UserSettings where
  ownerId : Nat
  dailySummaryEnabled : Bool
  dailySummaryTime : Int
deriving DecidableEq, Repr

/-- The core system's persistent state: opportunities, reminders, user
settings. -/
structure CoreState where
  opportunities : List Opportunity
  reminders : List Reminder
  settings : List UserSettings
deriving DecidableEq, Repr

/-- Simplified render tree of the React components: an element with a tag,
a class string, and children, or a text node. -/
inductive Html
  | el (tag : String) (cls : String) (children : List Html)
  | text (s : String)

/-- Embedded from HeroSection.tsx (src/unnamed/part_001): static hero
copy; no prop, no state, no store access. -/
def heroSection : Html :=
  .el "section" "pt-32 pb-20" [
    .el "h1" "text-5xl sm:text-6xl font-bold" [.text "Never Miss an Opportunity"],
    .el "p" "text-xl text-gray-600" [.text "Forward opportunities from Telegram channels."],
    .el "a" "bg-blue-600 text-white" [.text "Start Now"],
    .el "a" "border-2 border-gray-300" [.text "Learn More"]]

/-- Embedded from Header.tsx (src/unnamed/part_002): renders from the
`scrolled` prop and the local mobile-menu flag only. -/
def header (scrolled mobileMenuOpen : Bool) : Html :=
  .el "header" (if scrolled then "bg-white shadow-md" else "bg-white/80 backdrop-blur-sm")
    ([.el "nav" "max-w-7xl" [.text "OppTick", .text "Features", .text "How It Works",
        .text "Start with Telegram"]] ++
      (if mobileMenuOpen then
        [.el "div" "md:hidden border-t" [.text "Features", .text "How It Works",
          .text "Start with Telegram"]]
      else []))

/-- Embedded from FeaturesSection.tsx (src/unnamed/part_003): the static
feature cards. -/
def featuresList : List (String × String) :=
  [("Auto-Detect Deadlines",
    "OppTick analyzes forwarded messages to automatically extract deadlines."),
   ("Smart Reminders",
    "Receive reminders at 14, 7, 3, and 1 days before deadline."),
   ("Track Everything",
    "Organize opportunities by type and priority level for easy management.")]

def featuresSection : Html :=
  .el "section" "py-20" (
    (featuresList.map fun f => .el "div" "bg-white border border-gray-200" [
      .el "h3" "text-xl font-semibold" [.text f.1],
      .el "p" "text-gray-600" [.text f.2]]) ++
    [.el "div" "mt-16 bg-gray-50" (["Internship", "Scholarship", "Event", "Custom"].map
      fun t => .el "div" "bg-white" [.text t])])

/-- Embedded from src/components/HowItWorks.tsx: the four static steps. -/
def stepsList : List (String × String) :=
  [("1", "Forward a Message"), ("2", "Confirm Details"),
   ("3", "Get Reminders"), ("4", "Stay Organized")]

def howItWorks : Html :=
  .el "section" "py-20" (
    (stepsList.map fun st => .el "div" "relative" [.text st.1, .text st.2]) ++
    [.el "a" "inline-block bg-blue-600" [.text "Add OppTick Bot"]])

/-- Embedded from src/components/Footer.tsx: static link columns. -/
def footer : Html :=
  .el "footer" "bg-gray-900" [
    .el "div" "" [.text "OppTick", .text "Never miss an opportunity again."],
    .el "ul" "" [.text "Features", .text "How It Works", .text "Telegram Bot"],
    .el "ul" "" [.text "Documentation", .text "FAQ", .text "Contact"],
    .el "ul" "" [.text "Privacy", .text "Terms"]]

/-- Embedded from src/app/page.tsx (Home): composes Header, the main
sections, and Footer; the only state it reads is the `scrolled` flag and
the Header's local mobile-menu flag. -/
def home (scrolled mobileMenuOpen : Bool) : Html :=
  .el "div" "min-h-screen bg-white" [
    header scrolled mobileMenuOpen,
    .el "main" "" [heroSection, featuresSection, howItWorks],
    footer]

/-- Whole-application state while the landing page is shown: the core
system state plus the two local UI flags. -/
structure AppState where
  core : CoreState
  scrolled : Bool
  mobileMenuOpen : Bool
deriving DecidableEq, Repr

/-- The UI events the landing page handles: the scroll listener of Home
(which sets `scrolled` to scrollY greater than 50) and the Header's
mobile-menu toggle. -/
inductive UiEvent
  | scrollTo (y : Int)
  | toggleMenu
deriving DecidableEq, Repr

def uiStep (s : AppState) : UiEvent → AppState
  | .scrollTo y => { s with scrolled := decide (y > 50) }
  | .toggleMenu => { s with mobileMenuOpen := !s.mobileMenuOpen }

def renderApp (s : AppState) : Html :=
  home s.scrolled s.mobileMenuOpen

theorem uiRun_core (evs : List UiEvent) (s : AppState) :
    (evs.foldl uiStep s).core = s.core := by
  induction evs generalizing s with
  | nil => rfl
  | cons e es ih =>
    rw [List.foldl_cons, ih (uiStep s e)]
    cases e <;> rfl

/-! ### Claim C10 -/

/-- C10: rendering the landing page reads none of the core system's state
and writes none of it — the render output depends only on the two local
UI flags (two states agreeing on them render identically whatever their
cores hold), and any sequence of UI events leaves every field of the core
state unchanged. -/
theorem landing_page_pure (s s2 : AppState) (ev : UiEvent) (evs : List UiEvent)
    (hs : s.scrolled = s2.scrolled) (hm : s.mobileMenuOpen = s2.mobileMenuOpen) :
    renderApp s = renderApp s2
    ∧ (uiStep s ev).core = s.core
    ∧ (evs.foldl uiStep s).core = s.core := by
  refine ⟨?_, ?_, uiRun_core evs s⟩
  · unfold renderApp
    rw [hs, hm]
  · cases ev <;> rfl

/-- Witness for C10: two app states with different cores but equal UI
flags render the same page. -/
theorem landing_page_pure_witness :
    renderApp { core := { opportunities := [sampleHigh], reminders := [], settings := [] },
                scrolled := false, mobileMenuOpen := false }
      = renderApp { core := { opportunities := [], reminders := [], settings := [] },
                    scrolled := false, mobileMenuOpen := false } :=
  (landing_page_pure
    { core := { opportunities := [sampleHigh], reminders := [], settings := [] },
      scrolled := false, mobileMenuOpen := false }
    { core := { opportunities := [], reminders := [], settings := [] },
      scrolled := false, mobileMenuOpen := false }
    UiEvent.toggleMenu [] rfl rfl).1

end OppTick
